import Mathlib

/-!
Verification of the sandboxed-execution and approval core of this repository:
shallow embeddings of the escalation IPC session handler, the escalation
server loop, the exec-pipeline timeout contract, the boxlite runtime-dir
discovery, the apply-patch command assembly and approval flow, the
web-server approval manager, and the loader-path environment prepending,
with theorems checking the design document's claims against them.
-/

namespace Codex

/-! ## Association-list model of a string-keyed map.

Rust uses HashMap over String keys; we model it as an association list with a
canonical insert (erase the key, append the new binding) so that map equality
is list equality. -/

abbrev EnvMap := List (String × String)

def lookupKey {α : Type} (m : List (String × α)) (k : String) : Option α :=
  (m.find? (fun p => p.1 == k)).map (fun p => p.2)

def eraseKey {α : Type} (m : List (String × α)) (k : String) : List (String × α) :=
  m.filter (fun p => !(p.1 == k))

def envGet (m : EnvMap) (k : String) : Option String := lookupKey m k

def envInsert (m : EnvMap) (k v : String) : EnvMap := eraseKey m k ++ [(k, v)]

theorem envGet_envInsert_self (m : EnvMap) (k v : String) :
    envGet (envInsert m k v) k = some v := by
  unfold envGet envInsert lookupKey eraseKey
  rw [List.find?_append]
  have hnone : (m.filter (fun p => !(p.1 == k))).find? (fun p => p.1 == k) = none := by
    apply List.find?_eq_none.mpr
    intro p hp
    have := (List.mem_filter.mp hp).2
    simpa using this
  rw [hnone]
  simp

theorem eraseKey_envInsert (m : EnvMap) (k v : String) :
    eraseKey (envInsert m k v) k = eraseKey m k := by
  unfold envInsert eraseKey
  rw [List.filter_append]
  simp [List.filter_filter]

theorem envInsert_envInsert (m : EnvMap) (k v w : String) :
    envInsert (envInsert m k v) k w = envInsert m k w := by
  unfold envInsert
  rw [show eraseKey (eraseKey m k ++ [(k, v)]) k = eraseKey (envInsert m k v) k from rfl]
  rw [eraseKey_envInsert]

/-! ## Character-level model of std::env::split_paths and join_paths (unix).

split_paths splits the value on the colon separator; join_paths joins with
the colon and fails when any element itself contains a colon. -/

def splitSepAux (sep : Char) : List Char → List Char → List (List Char)
  | [], acc => [acc.reverse]
  | c :: rest, acc =>
    if c = sep then acc.reverse :: splitSepAux sep rest []
    else splitSepAux sep rest (c :: acc)

def joinSep (sep : Char) : List (List Char) → List Char
  | [] => []
  | [l] => l
  | l :: ls => l ++ sep :: joinSep sep ls

def split_paths (s : String) : List String :=
  (splitSepAux ':' s.data []).map (fun cs => String.mk cs)

def join_paths (l : List String) : Option String :=
  if l.any (fun p => p.data.any (fun c => c == ':')) then none
  else some (String.mk (joinSep ':' (l.map String.data)))

theorem splitSepAux_no_sep (sep : Char) :
    ∀ (cs acc : List Char), (∀ c ∈ acc, c ≠ sep) →
      ∀ l ∈ splitSepAux sep cs acc, ∀ c ∈ l, c ≠ sep := by
  intro cs
  induction cs with
  | nil =>
    intro acc hacc l hl c hc
    simp only [splitSepAux, List.mem_singleton] at hl
    subst hl
    exact hacc c (List.mem_reverse.mp hc)
  | cons x rest ih =>
    intro acc hacc l hl c hc
    by_cases hx : x = sep
    · simp only [splitSepAux, if_pos hx, List.mem_cons] at hl
      rcases hl with hl | hl
      · subst hl
        exact hacc c (List.mem_reverse.mp hc)
      · exact ih [] (by simp) l hl c hc
    · simp only [splitSepAux, if_neg hx] at hl
      refine ih (x :: acc) ?_ l hl c hc
      intro d hd
      rcases List.mem_cons.mp hd with hd | hd
      · subst hd; exact hx
      · exact hacc d hd

theorem splitSepAux_all_no_sep (sep : Char) (cs acc : List Char)
    (hacc : ∀ c ∈ acc, c ≠ sep) (hcs : ∀ c ∈ cs, c ≠ sep) :
    splitSepAux sep cs acc = [acc.reverse ++ cs] := by
  induction cs generalizing acc with
  | nil => simp [splitSepAux]
  | cons x rest ih =>
    have hx : x ≠ sep := hcs x (by simp)
    simp only [splitSepAux, if_neg hx]
    rw [ih (x :: acc) (by
      intro d hd
      rcases List.mem_cons.mp hd with hd | hd
      · subst hd; exact hx
      · exact hacc d hd)
      (fun c hc => hcs c (by simp [hc]))]
    simp

theorem splitSepAux_append_sep (sep : Char) (cs rest acc : List Char)
    (hacc : ∀ c ∈ acc, c ≠ sep) (hcs : ∀ c ∈ cs, c ≠ sep) :
    splitSepAux sep (cs ++ sep :: rest) acc
      = (acc.reverse ++ cs) :: splitSepAux sep rest [] := by
  induction cs generalizing acc with
  | nil => simp [splitSepAux]
  | cons x xs ih =>
    have hx : x ≠ sep := hcs x (by simp)
    simp only [List.cons_append, splitSepAux, if_neg hx]
    rw [show xs.append (sep :: rest) = xs ++ sep :: rest from rfl]
    rw [ih (x :: acc) (by
      intro d hd
      rcases List.mem_cons.mp hd with hd | hd
      · subst hd; exact hx
      · exact hacc d hd)
      (fun c hc => hcs c (by simp [hc]))]
    simp

theorem splitSepAux_joinSep (sep : Char) :
    ∀ ls : List (List Char), ls ≠ [] → (∀ l ∈ ls, ∀ c ∈ l, c ≠ sep) →
      splitSepAux sep (joinSep sep ls) [] = ls := by
  intro ls
  induction ls with
  | nil => intro h; exact absurd rfl h
  | cons l rest ih =>
    intro _ hsep
    match rest, ih with
    | [], _ =>
      show splitSepAux sep (joinSep sep [l]) [] = [l]
      rw [show joinSep sep [l] = l from rfl]
      rw [splitSepAux_all_no_sep sep l [] (by simp) (hsep l (by simp))]
      simp
    | r :: rs, ih =>
      show splitSepAux sep (joinSep sep (l :: r :: rs)) [] = l :: r :: rs
      rw [show joinSep sep (l :: r :: rs) = l ++ sep :: joinSep sep (r :: rs) from rfl]
      rw [splitSepAux_append_sep sep l (joinSep sep (r :: rs)) [] (by simp)
        (hsep l (by simp))]
      rw [ih (by simp) (fun m hm => hsep m (by simp [hm]))]
      simp

theorem split_paths_no_colon (s : String) :
    ∀ p ∈ split_paths s, ∀ c ∈ p.data, c ≠ ':' := by
  intro p hp c hc
  unfold split_paths at hp
  rcases List.mem_map.mp hp with ⟨cs, hcs, hmk⟩
  have hd : p.data = cs := by rw [← hmk]
  rw [hd] at hc
  exact splitSepAux_no_sep ':' s.data [] (by simp) cs hcs c hc

theorem join_paths_of_no_colon (l : List String)
    (h : ∀ p ∈ l, ∀ c ∈ p.data, c ≠ ':') :
    join_paths l = some (String.mk (joinSep ':' (l.map String.data))) := by
  unfold join_paths
  rw [if_neg]
  intro hany
  rw [List.any_eq_true] at hany
  rcases hany with ⟨p, hp, hpc⟩
  rw [List.any_eq_true] at hpc
  rcases hpc with ⟨c, hc, hceq⟩
  exact h p hp c hc (by simpa using hceq)

theorem split_paths_join_paths (l : List String) (hne : l ≠ [])
    (h : ∀ p ∈ l, ∀ c ∈ p.data, c ≠ ':') :
    split_paths (String.mk (joinSep ':' (l.map String.data))) = l := by
  unfold split_paths
  have hdata : (String.mk (joinSep ':' (l.map String.data))).data
      = joinSep ':' (l.map String.data) := rfl
  rw [hdata]
  rw [splitSepAux_joinSep ':' (l.map String.data)
    (by simpa using hne)
    (by
      intro cs hcs c hc
      rcases List.mem_map.mp hcs with ⟨p, hp, hpd⟩
      exact h p hp c (hpd ▸ hc))]
  rw [List.map_map]
  have : (fun cs => String.mk cs) ∘ String.data = id := by
    funext s
    rfl
  rw [this, List.map_id]

/-! ## Path equality.

Rust compares PathBuf values by their parsed components: the root, a leading
current-dir component of a relative path, and the remaining normal components
with empty and non-leading current-dir segments dropped. -/

def pathSegs (s : String) : List String :=
  (splitSepAux '/' s.data []).map (fun cs => String.mk cs)

def pathNorm (s : String) : Bool × Bool × List String :=
  let segs := pathSegs s
  let isAbs : Bool := s.data.head? == some '/'
  let leadingCur : Bool := !isAbs && segs.head? == some "."
  (isAbs, leadingCur, segs.filter (fun c => !(c == "") && !(c == ".")))

def pathEq (a b : String) : Bool := pathNorm a == pathNorm b

theorem pathEq_refl (a : String) : pathEq a a = true := by
  simp [pathEq]

/-! ## prepend_env_path.

Embedding of prepend_env_path from escalate_server.rs and apply_patch.rs
(the two copies are textually identical): put the runtime directory first,
keep every pre-existing entry of the variable that does not equal it as a
path, and re-join; when join_paths fails the env is left untouched. -/

def prependPathList (env : EnvMap) (key : String) (value : String) : List String :=
  value :: (match envGet env key with
    | some existing => (split_paths existing).filter (fun p => !(pathEq p value))
    | none => [])

def prepend_env_path (env : EnvMap) (key : String) (value : String) : EnvMap :=
  match join_paths (prependPathList env key value) with
  | some joined => envInsert env key joined
  | none => env

theorem prependPathList_no_colon (env : EnvMap) (key value : String)
    (hv : ∀ c ∈ value.data, c ≠ ':') :
    ∀ p ∈ prependPathList env key value, ∀ c ∈ p.data, c ≠ ':' := by
  intro p hp
  unfold prependPathList at hp
  rcases List.mem_cons.mp hp with hp | hp
  · subst hp; exact hv
  · match hkey : envGet env key with
    | some existing =>
      rw [hkey] at hp
      exact split_paths_no_colon existing p (List.mem_filter.mp hp).1
    | none =>
      rw [hkey] at hp
      simp at hp

theorem envEntries_prepend_env_path (env : EnvMap) (key value : String)
    (hv : ∀ c ∈ value.data, c ≠ ':') :
    ∃ joined,
      envGet (prepend_env_path env key value) key = some joined ∧
      split_paths joined = prependPathList env key value := by
  have hnc := prependPathList_no_colon env key value hv
  have hjoin := join_paths_of_no_colon (prependPathList env key value) hnc
  refine ⟨String.mk (joinSep ':' ((prependPathList env key value).map String.data)), ?_, ?_⟩
  · unfold prepend_env_path
    rw [hjoin]
    exact envGet_envInsert_self env key _
  · exact split_paths_join_paths _ (by unfold prependPathList; simp) hnc

theorem prepend_env_path_idempotent (env : EnvMap) (key value : String)
    (hv : ∀ c ∈ value.data, c ≠ ':') :
    prepend_env_path (prepend_env_path env key value) key value
      = prepend_env_path env key value := by
  have hnc := prependPathList_no_colon env key value hv
  have hjoin := join_paths_of_no_colon (prependPathList env key value) hnc
  set joined := String.mk (joinSep ':' ((prependPathList env key value).map String.data)) with hj
  have henv1 : prepend_env_path env key value = envInsert env key joined := by
    unfold prepend_env_path
    rw [hjoin]
  have hget1 : envGet (envInsert env key joined) key = some joined :=
    envGet_envInsert_self env key joined
  have hsplit : split_paths joined = prependPathList env key value :=
    split_paths_join_paths _ (by unfold prependPathList; simp) hnc
  have hlist2 : prependPathList (envInsert env key joined) key value
      = prependPathList env key value := by
    have h1 : prependPathList (envInsert env key joined) key value
        = value :: (split_paths joined).filter (fun p => !(pathEq p value)) := by
      unfold prependPathList
      rw [hget1]
    rw [h1, hsplit]
    unfold prependPathList
    simp only [List.filter_cons]
    rw [if_neg (by simp [pathEq_refl value])]
    congr 1
    cases hkey : envGet env key with
    | none => simp
    | some existing =>
      apply List.filter_eq_self.mpr
      intro p hp
      exact (List.mem_filter.mp hp).2
  rw [henv1]
  unfold prepend_env_path
  rw [hlist2, hjoin]
  exact envInsert_envInsert env key joined joined

def envEntries (env : EnvMap) (key : String) : List String :=
  match envGet env key with
  | some s => split_paths s
  | none => []

theorem prependPathList_eq_envEntries (env : EnvMap) (key value : String) :
    prependPathList env key value
      = value :: (envEntries env key).filter (fun p => !(pathEq p value)) := by
  unfold prependPathList envEntries
  cases envGet env key with
  | none => simp
  | some existing => simp

/-- C10 counterexample: the claim quantifies over every directory, but for a
directory whose name contains the path-separator colon, join_paths fails and
prepend_env_path leaves the env untouched, so the resulting value does not
list the directory at all. Concretely, prepending the directory /a:b to an
empty env leaves the variable unset. -/
theorem prepend_env_path_colon_counterexample :
    prepend_env_path [] "LD_LIBRARY_PATH" "/a:b" = [] ∧
    envGet (prepend_env_path [] "LD_LIBRARY_PATH" "/a:b") "LD_LIBRARY_PATH" = none := by
  constructor <;> rfl

/-- C10 (amended): for every env map, key, and directory whose name is free of
the path-separator colon, the resulting value of the variable lists the
directory exactly once, as the first entry, with all other pre-existing
entries preserved in their original relative order, and applying the
operation twice yields the same env as applying it once. -/
theorem prepend_env_path_dedup_idem (env : EnvMap) (key value : String)
    (hv : ∀ c ∈ value.data, c ≠ ':') :
    envEntries (prepend_env_path env key value) key
      = value :: (envEntries env key).filter (fun p => !(pathEq p value)) ∧
    (envEntries (prepend_env_path env key value) key).countP
      (fun p => pathEq p value) = 1 ∧
    prepend_env_path (prepend_env_path env key value) key value
      = prepend_env_path env key value := by
  obtain ⟨joined, hget, hsplit⟩ := envEntries_prepend_env_path env key value hv
  have hentries : envEntries (prepend_env_path env key value) key
      = value :: (envEntries env key).filter (fun p => !(pathEq p value)) := by
    have h0 : envEntries (prepend_env_path env key value) key = split_paths joined := by
      simp only [envEntries, hget]
    rw [h0, hsplit, prependPathList_eq_envEntries]
  refine ⟨hentries, ?_, prepend_env_path_idempotent env key value hv⟩
  rw [hentries, List.countP_cons]
  have hzero : ((envEntries env key).filter (fun p => !(pathEq p value))).countP
      (fun p => pathEq p value) = 0 := by
    apply List.countP_eq_zero.mpr
    intro p hp
    have := (List.mem_filter.mp hp).2
    simp only [Bool.not_eq_true'] at this
    simp [this]
  rw [hzero]
  simp [pathEq_refl]

/-- C10 witness: the amended theorem applied at a concrete env holding an
existing two-entry value in which the prepended directory already occurs. -/
theorem prepend_env_path_dedup_idem_witness :
    (∀ c ∈ ("/rt" : String).data, c ≠ ':') ∧
    (envEntries (prepend_env_path [("LD_LIBRARY_PATH", "/old:/rt")] "LD_LIBRARY_PATH" "/rt")
        "LD_LIBRARY_PATH"
      = "/rt" :: (envEntries [("LD_LIBRARY_PATH", "/old:/rt")] "LD_LIBRARY_PATH").filter
          (fun p => !(pathEq p "/rt")) ∧
     (envEntries (prepend_env_path [("LD_LIBRARY_PATH", "/old:/rt")] "LD_LIBRARY_PATH" "/rt")
        "LD_LIBRARY_PATH").countP (fun p => pathEq p "/rt") = 1 ∧
     prepend_env_path
        (prepend_env_path [("LD_LIBRARY_PATH", "/old:/rt")] "LD_LIBRARY_PATH" "/rt")
        "LD_LIBRARY_PATH" "/rt"
      = prepend_env_path [("LD_LIBRARY_PATH", "/old:/rt")] "LD_LIBRARY_PATH" "/rt") :=
  ⟨by decide,
   prepend_env_path_dedup_idem [("LD_LIBRARY_PATH", "/old:/rt")] "LD_LIBRARY_PATH" "/rt"
     (by decide)⟩

/-! ## Escalation IPC session (escalate_server.rs).

Wire structs and the per-session handler handle_escalate_session_with_policy.
The handler is embedded as a pure function of the received EscalateRequest,
the policy decision, the (optional) second message with its ancillary fds,
and the spawn outcome; its observable behaviour is a trace of the messages
written to the stream socket, the number of SuperExecMessages read, and the
spawn configuration handed to the OS. Command envs is called without
env_clear, so the child environment is the server process environment
overlaid with the request entries; the handler therefore also takes the
server environment as an input. -/

inductive EscalateAction where
  | Run
  | Escalate
  | Deny (reason : String)
  deriving DecidableEq

structure EscalateRequest where
  file : String
  argv : List String
  workdir : String
  env : List (String × String)
  deriving DecidableEq

structure SuperExecMessage where
  fds : List Int
  deriving DecidableEq

structure ExitStatus where
  code : Option Int
  signal : Option Int
  deriving DecidableEq

inductive SentMsg where
  | response (action : EscalateAction)
  | execResult (exit_code : Int)
  deriving DecidableEq

structure SpawnSpec where
  program : String
  args : List String
  arg0 : String
  env : List (String × String)
  cwd : String
  dup2s : List (Int × Int)
  deriving DecidableEq

inductive SessionOutcome where
  | ok
  | protocolError
  | ioError
  deriving DecidableEq

structure SessionTrace where
  sent : List SentMsg
  superExecReceived : Nat
  spawned : Option SpawnSpec
  outcome : SessionOutcome
  deriving DecidableEq

/-- Shallow model of path absolutization performed with Absolutize: a path
starting with the root separator is kept, a relative one is resolved against
the server process current directory. -/
def absolutize (cwd path : String) : String :=
  if path.data.head? == some '/' then path else cwd ++ "/" ++ path

def dupPairsOverlap (msgFds : List Int) (srcFds : List Int) : Bool :=
  msgFds.any (fun dst => srcFds.any (fun src => src == dst))

/-- Command envs semantics: each request entry is inserted into the child
env map, which starts as the inherited server environment (no env_clear in
the source). -/
def envsMerge (base : EnvMap) (extra : List (String × String)) : EnvMap :=
  extra.foldl (fun e kv => envInsert e kv.1 kv.2) base

def handle_escalate_session_with_policy (serverCwd : String)
    (serverEnv : List (String × String)) (req : EscalateRequest)
    (action : EscalateAction)
    (superExec : Option (SuperExecMessage × List Int))
    (spawnStatus : Option ExitStatus) : SessionTrace :=
  let file := absolutize serverCwd req.file
  let workdir := absolutize serverCwd req.workdir
  match action with
  | .Run => ⟨[.response .Run], 0, none, .ok⟩
  | .Deny reason => ⟨[.response (.Deny reason)], 0, none, .ok⟩
  | .Escalate =>
    match superExec with
    | none => ⟨[.response .Escalate], 0, none, .ioError⟩
    | some (msg, srcFds) =>
      if msg.fds.length ≠ srcFds.length then
        ⟨[.response .Escalate], 1, none, .protocolError⟩
      else if dupPairsOverlap msg.fds srcFds then
        ⟨[.response .Escalate], 1, none, .protocolError⟩
      else
        let spec : SpawnSpec :=
          { program := file
            args := req.argv.tail
            arg0 := req.argv.headD ""
            env := envsMerge serverEnv req.env
            cwd := workdir
            dup2s := msg.fds.zip srcFds }
        match spawnStatus with
        | none => ⟨[.response .Escalate], 1, some spec, .ioError⟩
        | some st =>
          ⟨[.response .Escalate, .execResult (st.code.getD 127)], 1, some spec, .ok⟩

def countResponses (l : List SentMsg) : Nat :=
  l.countP (fun m => match m with | .response _ => true | .execResult _ => false)

def countResults (l : List SentMsg) : Nat :=
  l.countP (fun m => match m with | .response _ => false | .execResult _ => true)

/-- The /dev/null-or-dup2 binding a destination fd ends up with: the source
of the last dup2 pair targeting it, or none meaning the null device. -/
def stdioBinding (spec : SpawnSpec) (d : Int) : Option Int :=
  ((spec.dup2s.filter (fun p => p.1 == d)).reverse.head?).map (fun p => p.2)

theorem escalate_session_run_eq (serverCwd : String) (serverEnv : List (String × String))
    (req : EscalateRequest)
    (superExec : Option (SuperExecMessage × List Int)) (spawnStatus : Option ExitStatus) :
    handle_escalate_session_with_policy serverCwd serverEnv req .Run superExec spawnStatus
      = ⟨[.response .Run], 0, none, .ok⟩ := rfl

theorem escalate_session_deny_eq (serverCwd : String) (serverEnv : List (String × String))
    (req : EscalateRequest) (reason : String)
    (superExec : Option (SuperExecMessage × List Int)) (spawnStatus : Option ExitStatus) :
    handle_escalate_session_with_policy serverCwd serverEnv req (.Deny reason) superExec spawnStatus
      = ⟨[.response (.Deny reason)], 0, none, .ok⟩ := rfl

theorem escalate_session_norecv_eq (serverCwd : String) (serverEnv : List (String × String))
    (req : EscalateRequest)
    (spawnStatus : Option ExitStatus) :
    handle_escalate_session_with_policy serverCwd serverEnv req .Escalate none spawnStatus
      = ⟨[.response .Escalate], 0, none, .ioError⟩ := rfl

theorem escalate_session_badfds_eq (serverCwd : String) (serverEnv : List (String × String))
    (req : EscalateRequest)
    (msg : SuperExecMessage) (srcFds : List Int) (spawnStatus : Option ExitStatus)
    (h : msg.fds.length ≠ srcFds.length ∨ dupPairsOverlap msg.fds srcFds = true) :
    handle_escalate_session_with_policy serverCwd serverEnv req .Escalate (some (msg, srcFds)) spawnStatus
      = ⟨[.response .Escalate], 1, none, .protocolError⟩ := by
  rcases h with h | h
  · simp [handle_escalate_session_with_policy, h]
  · by_cases hlen : msg.fds.length = srcFds.length
    · simp [handle_escalate_session_with_policy, hlen, h]
    · simp [handle_escalate_session_with_policy, hlen]

theorem escalate_session_spawn_eq (serverCwd : String) (serverEnv : List (String × String))
    (req : EscalateRequest)
    (msg : SuperExecMessage) (srcFds : List Int) (st : ExitStatus)
    (hlen : msg.fds.length = srcFds.length)
    (hov : dupPairsOverlap msg.fds srcFds = false) :
    handle_escalate_session_with_policy serverCwd serverEnv req .Escalate (some (msg, srcFds)) (some st)
      = ⟨[.response .Escalate, .execResult (st.code.getD 127)], 1,
         some ⟨absolutize serverCwd req.file, req.argv.tail, req.argv.headD "",
               envsMerge serverEnv req.env, absolutize serverCwd req.workdir,
               msg.fds.zip srcFds⟩, .ok⟩ := by
  simp [handle_escalate_session_with_policy, hlen, hov]

theorem escalate_session_spawnfail_eq (serverCwd : String) (serverEnv : List (String × String))
    (req : EscalateRequest)
    (msg : SuperExecMessage) (srcFds : List Int)
    (hlen : msg.fds.length = srcFds.length)
    (hov : dupPairsOverlap msg.fds srcFds = false) :
    handle_escalate_session_with_policy serverCwd serverEnv req .Escalate (some (msg, srcFds)) none
      = ⟨[.response .Escalate], 1,
         some ⟨absolutize serverCwd req.file, req.argv.tail, req.argv.headD "",
               envsMerge serverEnv req.env, absolutize serverCwd req.workdir,
               msg.fds.zip srcFds⟩, .ioError⟩ := by
  simp [handle_escalate_session_with_policy, hlen, hov]

/-- C1: a session that received an EscalateRequest writes exactly one
EscalateResponse and at most one SuperExecResult; when the policy decides
Escalate and the session completes the exchange (one SuperExecMessage with
matching, non-overlapping fds, and one reaped child), it reads exactly one
SuperExecMessage and writes exactly one SuperExecResult. -/
theorem escalate_session_message_counts (serverCwd : String) (serverEnv : List (String × String))
    (req : EscalateRequest)
    (action : EscalateAction) (superExec : Option (SuperExecMessage × List Int))
    (spawnStatus : Option ExitStatus) :
    countResponses (handle_escalate_session_with_policy serverCwd serverEnv req action superExec
      spawnStatus).sent = 1 ∧
    countResults (handle_escalate_session_with_policy serverCwd serverEnv req action superExec
      spawnStatus).sent ≤ 1 ∧
    (action = .Escalate → ∀ msg srcFds st,
      superExec = some (msg, srcFds) → spawnStatus = some st →
      msg.fds.length = srcFds.length → dupPairsOverlap msg.fds srcFds = false →
      (handle_escalate_session_with_policy serverCwd serverEnv req action superExec
        spawnStatus).superExecReceived = 1 ∧
      countResults (handle_escalate_session_with_policy serverCwd serverEnv req action superExec
        spawnStatus).sent = 1) := by
  cases action with
  | Run =>
    rw [escalate_session_run_eq]
    exact ⟨rfl, Nat.zero_le 1, fun hact => absurd hact (by simp)⟩
  | Deny reason =>
    rw [escalate_session_deny_eq]
    exact ⟨rfl, Nat.zero_le 1, fun hact => absurd hact (by simp)⟩
  | Escalate =>
    cases superExec with
    | none =>
      rw [escalate_session_norecv_eq]
      refine ⟨rfl, Nat.zero_le 1, ?_⟩
      intro _ msg srcFds st hse _
      exact absurd hse (by simp)
    | some pair =>
      obtain ⟨msg, srcFds⟩ := pair
      by_cases hlen : msg.fds.length = srcFds.length
      · by_cases hov : dupPairsOverlap msg.fds srcFds = true
        · rw [escalate_session_badfds_eq serverCwd serverEnv req msg srcFds spawnStatus (Or.inr hov)]
          refine ⟨rfl, Nat.zero_le 1, ?_⟩
          intro _ msg2 srcFds2 st hse _ _ hov2
          obtain ⟨h1, h2⟩ : msg = msg2 ∧ srcFds = srcFds2 := by simpa using hse
          subst h1; subst h2
          rw [hov] at hov2
          exact absurd hov2 (by decide)
        · have hovf : dupPairsOverlap msg.fds srcFds = false := by simpa using hov
          cases spawnStatus with
          | none =>
            rw [escalate_session_spawnfail_eq serverCwd serverEnv req msg srcFds hlen hovf]
            refine ⟨rfl, Nat.zero_le 1, ?_⟩
            intro _ msg2 srcFds2 st _ hsp
            exact absurd hsp (by simp)
          | some st =>
            rw [escalate_session_spawn_eq serverCwd serverEnv req msg srcFds st hlen hovf]
            exact ⟨rfl, Nat.le_refl 1, fun _ _ _ _ _ _ _ _ => ⟨rfl, rfl⟩⟩
      · rw [escalate_session_badfds_eq serverCwd serverEnv req msg srcFds spawnStatus (Or.inl hlen)]
        refine ⟨rfl, Nat.zero_le 1, ?_⟩
        intro _ msg2 srcFds2 st hse _ hlen2 _
        obtain ⟨h1, h2⟩ : msg = msg2 ∧ srcFds = srcFds2 := by simpa using hse
        subst h1; subst h2
        exact absurd hlen2 hlen

/-- C1 witness: the counting theorem applied to a concrete completed
Escalate exchange with an empty fd list and exit code 42. -/
theorem escalate_session_message_counts_witness :
    (handle_escalate_session_with_policy "/" [] ⟨"/bin/sh", ["sh"], "/tmp", []⟩ .Escalate
      (some (⟨[]⟩, [])) (some ⟨some 42, none⟩)).superExecReceived = 1 ∧
    countResults (handle_escalate_session_with_policy "/" [] ⟨"/bin/sh", ["sh"], "/tmp", []⟩
      .Escalate (some (⟨[]⟩, [])) (some ⟨some 42, none⟩)).sent = 1 :=
  (escalate_session_message_counts "/" [] ⟨"/bin/sh", ["sh"], "/tmp", []⟩ .Escalate
    (some (⟨[]⟩, [])) (some ⟨some 42, none⟩)).2.2 rfl ⟨[]⟩ [] ⟨some 42, none⟩ rfl rfl rfl
    (by decide)

/-- C7: an Escalate session whose SuperExecMessage arrives with an ancillary
fd count different from the message fd list length, or with a destination
fd equal to one of the received source fds, ends in a protocol error, spawns
no child, and sends no SuperExecResult. -/
theorem escalate_session_rejects_bad_fds (serverCwd : String) (serverEnv : List (String × String))
    (req : EscalateRequest)
    (msg : SuperExecMessage) (srcFds : List Int) (spawnStatus : Option ExitStatus)
    (h : msg.fds.length ≠ srcFds.length ∨ dupPairsOverlap msg.fds srcFds = true) :
    (handle_escalate_session_with_policy serverCwd serverEnv req .Escalate (some (msg, srcFds))
      spawnStatus).outcome = .protocolError ∧
    (handle_escalate_session_with_policy serverCwd serverEnv req .Escalate (some (msg, srcFds))
      spawnStatus).spawned = none ∧
    countResults (handle_escalate_session_with_policy serverCwd serverEnv req .Escalate
      (some (msg, srcFds)) spawnStatus).sent = 0 := by
  rw [escalate_session_badfds_eq serverCwd serverEnv req msg srcFds spawnStatus h]
  exact ⟨rfl, rfl, rfl⟩

/-- C7 witness: the rejection theorem applied at a message naming one
destination fd but carrying no ancillary fd. -/
theorem escalate_session_rejects_bad_fds_witness :
    ((⟨[3]⟩ : SuperExecMessage).fds.length ≠ ([] : List Int).length ∨
      dupPairsOverlap (⟨[3]⟩ : SuperExecMessage).fds [] = true) ∧
    (handle_escalate_session_with_policy "/" [] ⟨"/bin/sh", ["sh"], "/tmp", []⟩ .Escalate
      (some (⟨[3]⟩, [])) none).outcome = .protocolError ∧
    (handle_escalate_session_with_policy "/" [] ⟨"/bin/sh", ["sh"], "/tmp", []⟩ .Escalate
      (some (⟨[3]⟩, [])) none).spawned = none :=
  ⟨Or.inl (by decide),
   (escalate_session_rejects_bad_fds "/" [] ⟨"/bin/sh", ["sh"], "/tmp", []⟩ ⟨[3]⟩ [] none
     (Or.inl (by decide))).1,
   (escalate_session_rejects_bad_fds "/" [] ⟨"/bin/sh", ["sh"], "/tmp", []⟩ ⟨[3]⟩ [] none
     (Or.inl (by decide))).2.1⟩

theorem lookupKey_cons_pos (p : String × String) (rest : EnvMap) (k : String)
    (hp : (p.1 == k) = true) :
    lookupKey (p :: rest) k = some p.2 := by
  simp [lookupKey, List.find?, hp]

theorem lookupKey_cons_neg (p : String × String) (rest : EnvMap) (k : String)
    (hp : (p.1 == k) = false) :
    lookupKey (p :: rest) k = lookupKey rest k := by
  simp [lookupKey, List.find?, hp]

theorem lookupKey_envInsert_other (m : EnvMap) (k k2 v : String) (h : k ≠ k2) :
    lookupKey (envInsert m k2 v) k = lookupKey m k := by
  have hk2 : (k2 == k) = false := by
    simp only [beq_eq_false_iff_ne]
    exact Ne.symm h
  unfold envInsert eraseKey
  induction m with
  | nil =>
    show lookupKey [(k2, v)] k = lookupKey [] k
    rw [lookupKey_cons_neg (k2, v) [] k hk2]
  | cons p rest ih =>
    by_cases hp : (p.1 == k2) = true
    · have hpk : (p.1 == k) = false := by
        have hpe : p.1 = k2 := by simpa using hp
        rw [hpe]
        exact hk2
      rw [List.filter_cons_of_neg (by simp [hp])]
      rw [lookupKey_cons_neg p rest k hpk]
      exact ih
    · have hpf : (p.1 == k2) = false := by simpa using hp
      rw [List.filter_cons_of_pos (by simp [hpf])]
      by_cases hpk : (p.1 == k) = true
      · show lookupKey (p :: _) k = lookupKey (p :: rest) k
        rw [lookupKey_cons_pos p _ k hpk, lookupKey_cons_pos p rest k hpk]
      · have hpkf : (p.1 == k) = false := by simpa using hpk
        show lookupKey (p :: _) k = lookupKey (p :: rest) k
        rw [lookupKey_cons_neg p _ k hpkf, lookupKey_cons_neg p rest k hpkf]
        exact ih

theorem lookupKey_eq_none_of_not_mem (m : EnvMap) (k : String)
    (h : k ∉ m.map Prod.fst) :
    lookupKey m k = none := by
  unfold lookupKey
  have hfind : m.find? (fun p => p.1 == k) = none := by
    apply List.find?_eq_none.mpr
    intro p hp hbeq
    exact h (List.mem_map.mpr ⟨p, hp, by simpa using hbeq⟩)
  rw [hfind]
  rfl

theorem lookupKey_envsMerge_not_mem (extra : List (String × String)) :
    ∀ (base : EnvMap) (k : String), lookupKey extra k = none →
      lookupKey (envsMerge base extra) k = lookupKey base k := by
  induction extra with
  | nil => intro base k _; rfl
  | cons p rest ih =>
    intro base k h
    by_cases hp : (p.1 == k) = true
    · rw [lookupKey_cons_pos p rest k hp] at h
      exact absurd h (by simp)
    · have hpf : (p.1 == k) = false := by simpa using hp
      rw [lookupKey_cons_neg p rest k hpf] at h
      show lookupKey (envsMerge (envInsert base p.1 p.2) rest) k = lookupKey base k
      rw [ih (envInsert base p.1 p.2) k h]
      exact lookupKey_envInsert_other base k p.1 p.2 (by
        intro hkp
        rw [hkp] at hpf
        simp at hpf)

theorem lookupKey_envsMerge_mem (extra : List (String × String)) :
    ∀ (base : EnvMap) (k v : String), (extra.map Prod.fst).Nodup →
      (k, v) ∈ extra → lookupKey (envsMerge base extra) k = some v := by
  induction extra with
  | nil =>
    intro base k v _ hmem
    exact absurd hmem (by simp)
  | cons p rest ih =>
    intro base k v hnd hmem
    rw [List.map_cons, List.nodup_cons] at hnd
    rcases List.mem_cons.mp hmem with hh | hh
    · obtain ⟨hk, hv⟩ : p.1 = k ∧ p.2 = v := by
        rw [← hh]
        exact ⟨rfl, rfl⟩
      have hrest : lookupKey rest k = none :=
        lookupKey_eq_none_of_not_mem rest k (hk ▸ hnd.1)
      show lookupKey (envsMerge (envInsert base p.1 p.2) rest) k = some v
      rw [lookupKey_envsMerge_not_mem rest (envInsert base p.1 p.2) k hrest]
      rw [hk, hv]
      exact envGet_envInsert_self base k v
    · show lookupKey (envsMerge (envInsert base p.1 p.2) rest) k = some v
      exact ih (envInsert base p.1 p.2) k v hnd.2 hh

/-- C8 counterexample: Command envs is called without env_clear, so the
request env is merged into the server's inherited environment rather than
replacing it; with an empty request env the child still carries the
server's variable, so the spawned env is not exactly the request's env. -/
theorem escalate_session_env_counterexample :
    ((handle_escalate_session_with_policy "/" [("HOME", "/root")]
        ⟨"/bin/sh", ["sh"], "/tmp", []⟩ .Escalate (some (⟨[]⟩, []))
        (some ⟨some 0, none⟩)).spawned.map (fun spec => spec.env))
      = some [("HOME", "/root")] ∧
    some (⟨"/bin/sh", ["sh"], "/tmp", []⟩ : EscalateRequest).env ≠
      ((handle_escalate_session_with_policy "/" [("HOME", "/root")]
        ⟨"/bin/sh", ["sh"], "/tmp", []⟩ .Escalate (some (⟨[]⟩, []))
        (some ⟨some 0, none⟩)).spawned.map (fun spec => spec.env)) := by
  constructor
  · rfl
  · decide

/-- C8 (amended): when an Escalate exchange completes, the child is spawned
with the absolutized file as program, the argv tail as arguments, argv head
as arg0, the server's inherited environment overlaid with the request's env
(a variable absent from the request env keeps the server's value and every
request entry takes effect), the absolutized workdir as cwd, one dup2 per
(dst, src) pair pairing the message fds with the received fds in order,
stdio destinations left on the null device unless some pair targets them,
and the SuperExecResult carries the child exit code, 127 when the process
yields none, with a terminating signal never propagated into the result. -/
theorem escalate_session_spawn_shape (serverCwd : String)
    (serverEnv : List (String × String)) (req : EscalateRequest)
    (msg : SuperExecMessage) (srcFds : List Int) (st : ExitStatus)
    (hargv : req.argv ≠ [])
    (hlen : msg.fds.length = srcFds.length)
    (hov : dupPairsOverlap msg.fds srcFds = false) :
    ∃ spec,
      (handle_escalate_session_with_policy serverCwd serverEnv req .Escalate
        (some (msg, srcFds)) (some st)).spawned = some spec ∧
      spec.program = absolutize serverCwd req.file ∧
      spec.args = req.argv.tail ∧
      some spec.arg0 = req.argv.head? ∧
      spec.env = envsMerge serverEnv req.env ∧
      (∀ k2, lookupKey req.env k2 = none →
        lookupKey spec.env k2 = lookupKey serverEnv k2) ∧
      ((req.env.map Prod.fst).Nodup → ∀ k2 v2, (k2, v2) ∈ req.env →
        lookupKey spec.env k2 = some v2) ∧
      spec.cwd = absolutize serverCwd req.workdir ∧
      spec.dup2s = msg.fds.zip srcFds ∧
      (∀ d : Int, (∀ p ∈ spec.dup2s, p.1 ≠ d) → stdioBinding spec d = none) ∧
      (handle_escalate_session_with_policy serverCwd serverEnv req .Escalate
        (some (msg, srcFds)) (some st)).sent
        = [.response .Escalate, .execResult (st.code.getD 127)] ∧
      (handle_escalate_session_with_policy serverCwd serverEnv req .Escalate
        (some (msg, srcFds)) (some st)).outcome = .ok := by
  rw [escalate_session_spawn_eq serverCwd serverEnv req msg srcFds st hlen hov]
  refine ⟨_, rfl, rfl, rfl, ?_, rfl, ?_, ?_, rfl, rfl, ?_, rfl, rfl⟩
  · have hh : ∀ (l : List String), l ≠ [] → some (l.headD "") = l.head? := by
      intro l hl
      cases l with
      | nil => exact absurd rfl hl
      | cons a t => rfl
    exact hh req.argv hargv
  · intro k2 h
    exact lookupKey_envsMerge_not_mem req.env serverEnv k2 h
  · intro hnd k2 v2 hm
    exact lookupKey_envsMerge_mem req.env serverEnv k2 v2 hnd hm
  · intro d hd
    unfold stdioBinding
    have hfil : (msg.fds.zip srcFds).filter (fun p => p.1 == d) = [] := by
      apply List.filter_eq_nil_iff.mpr
      intro p hp
      simpa using hd p hp
    simp [hfil]

/-- C8 witness: the spawn-shape theorem applied at a request for /bin/sh
with server env HOME=/root, request env KEY=VALUE, one dup2 pair (fd 5 from
received fd 9) and a child reaped without an exit code, producing result
127, with the child env inheriting HOME and carrying KEY. -/
theorem escalate_session_spawn_shape_witness :
    ((⟨"/bin/sh", ["sh", "-c", "exit 0"], "/tmp", [("KEY", "VALUE")]⟩ :
        EscalateRequest).argv ≠ [] ∧
      (⟨[5]⟩ : SuperExecMessage).fds.length = [(9 : Int)].length ∧
      dupPairsOverlap (⟨[5]⟩ : SuperExecMessage).fds [9] = false) ∧
    ∃ spec,
      (handle_escalate_session_with_policy "/" [("HOME", "/root")]
        ⟨"/bin/sh", ["sh", "-c", "exit 0"], "/tmp", [("KEY", "VALUE")]⟩ .Escalate
        (some (⟨[5]⟩, [9])) (some ⟨none, some 9⟩)).spawned = some spec ∧
      spec.program = absolutize "/" "/bin/sh" ∧
      spec.args = ["-c", "exit 0"] ∧
      lookupKey spec.env "HOME" = some "/root" ∧
      lookupKey spec.env "KEY" = some "VALUE" ∧
      (handle_escalate_session_with_policy "/" [("HOME", "/root")]
        ⟨"/bin/sh", ["sh", "-c", "exit 0"], "/tmp", [("KEY", "VALUE")]⟩ .Escalate
        (some (⟨[5]⟩, [9])) (some ⟨none, some 9⟩)).sent
        = [.response .Escalate, .execResult 127] :=
  ⟨⟨by decide, by decide, by decide⟩,
   match escalate_session_spawn_shape "/" [("HOME", "/root")]
      ⟨"/bin/sh", ["sh", "-c", "exit 0"], "/tmp", [("KEY", "VALUE")]⟩ ⟨[5]⟩ [9]
      ⟨none, some 9⟩ (by decide) (by decide) (by decide) with
   | ⟨spec, h1, h2, h3, _, _, h6, h7, _, _, _, h11, _⟩ =>
     ⟨spec, h1, h2, h3,
      h6 "HOME" (by decide),
      h7 (by decide) "KEY" "VALUE" (by decide),
      h11⟩⟩

/-! ## Escalation server loop (escalate_task).

The host loop receives control datagrams each carrying a list of ancillary
fds; a datagram with other than exactly one fd is logged and dropped, one
with exactly one fd spawns an independent session task whose error is caught
and logged inside the task. The loop is embedded over the list of incoming
datagrams, each paired with the outcome its session would produce. -/

structure LoopResult where
  handled : Nat
  dropped : Nat
  sessions : List SessionOutcome
  deriving DecidableEq

def escalate_task : List (List Int × SessionOutcome) → LoopResult
  | [] => ⟨0, 0, []⟩
  | (fds, outcome) :: rest =>
    let s := escalate_task rest
    if fds.length == 1 then ⟨s.handled + 1, s.dropped, outcome :: s.sessions⟩
    else ⟨s.handled + 1, s.dropped + 1, s.sessions⟩

/-- C9: the server loop handles every incoming handshake datagram no matter
what the earlier ones carried and no matter how the spawned sessions end: a
datagram with other than one fd only increments the dropped count, and every
datagram with exactly one fd spawns a session whose outcome, error or not,
is confined to the sessions list. -/
theorem escalate_task_never_dies (events : List (List Int × SessionOutcome)) :
    (escalate_task events).handled = events.length ∧
    (escalate_task events).dropped
      = events.countP (fun e => !(e.1.length == 1)) ∧
    (escalate_task events).sessions
      = (events.filter (fun e => e.1.length == 1)).map (fun e => e.2) := by
  induction events with
  | nil => exact ⟨rfl, rfl, rfl⟩
  | cons e rest ih =>
    obtain ⟨fds, outcome⟩ := e
    obtain ⟨ih1, ih2, ih3⟩ := ih
    by_cases h : (fds.length == 1) = true
    · simp [escalate_task, if_pos h, ih1, ih2, ih3, h]
    · simp [escalate_task, if_neg h, ih1, ih2, ih3, h]

/-! ## Exec pipeline timeout contract.

The exec pipeline (process_exec_tool_call in codex-core) is exercised by the
boxlite test suite under src but its body lives outside src, so its
termination behaviour is modelled from the spec. -/

structure StreamOutput where
  text : String
  truncated : Bool
  deriving DecidableEq

structure ExecToolCallOutput where
  exit_code : Int
  stdout : StreamOutput
  stderr : StreamOutput
  aggregated_output : StreamOutput
  duration_ms : Nat
  timed_out : Bool
  deriving DecidableEq

def timeoutMessage : String := "Execution timed out or was cancelled"

/-- Modelled from the spec: the output carried by Err Sandbox Timeout when an
attempt expiration fires, matching the snapshot asserted by the test
boxlite_timeout_returns_sandbox_timeout. -/
def timeoutOutput (durationMs : Nat) : ExecToolCallOutput :=
  { exit_code := 124
    stdout := ⟨"", false⟩
    stderr := ⟨timeoutMessage, false⟩
    aggregated_output := ⟨timeoutMessage, false⟩
    duration_ms := durationMs
    timed_out := true }

/-- What the child actually did: a natural exit with an optional code and the
captured streams, or the expiration firing first. -/
inductive ExecEvent where
  | exited (code : Option Int) (stdoutText stderrText aggregatedText : String)
      (durationMs : Nat)
  | expired (durationMs : Nat)
  deriving DecidableEq

inductive ExecPipelineResult where
  | ok (output : ExecToolCallOutput)
  | sandboxTimeout (output : ExecToolCallOutput)
  deriving DecidableEq

/-- Modelled from the spec: process_exec_tool_call returns the collected
output on a natural exit (lossy default exit code -1) and
Err Sandbox Timeout with the timeout output when the expiration fires. -/
def process_exec_tool_call : ExecEvent → ExecPipelineResult
  | .exited code so se agg d =>
    .ok { exit_code := code.getD (-1)
          stdout := ⟨so, false⟩
          stderr := ⟨se, false⟩
          aggregated_output := ⟨agg, false⟩
          duration_ms := d
          timed_out := false }
  | .expired d => .sandboxTimeout (timeoutOutput d)

/-- C2: every output the pipeline can produce with timed_out set came from the
expiration firing, is wrapped in the sandbox-timeout error, and carries exit
code 124 and the literal timeout stderr text. -/
theorem timed_out_implies_124 (ev : ExecEvent) (o : ExecToolCallOutput)
    (h : process_exec_tool_call ev = .ok o ∨ process_exec_tool_call ev = .sandboxTimeout o)
    (ht : o.timed_out = true) :
    process_exec_tool_call ev = .sandboxTimeout o ∧
    o.exit_code = 124 ∧
    o.stderr.text = timeoutMessage := by
  cases ev with
  | exited code so se agg d =>
    rcases h with h | h
    · have ho := h
      simp only [process_exec_tool_call, ExecPipelineResult.ok.injEq] at ho
      rw [← ho] at ht
      simp at ht
    · exact absurd h (by simp [process_exec_tool_call])
  | expired d =>
    rcases h with h | h
    · exact absurd h (by simp [process_exec_tool_call])
    · have ho := h
      simp only [process_exec_tool_call, ExecPipelineResult.sandboxTimeout.injEq] at ho
      rw [← ho] at ht ⊢
      exact ⟨by simp [process_exec_tool_call], rfl, rfl⟩

/-- C2 witness: the invariant applied at an expiration firing after 50 ms. -/
theorem timed_out_implies_124_witness :
    (process_exec_tool_call (.expired 50) = .ok (timeoutOutput 50) ∨
      process_exec_tool_call (.expired 50) = .sandboxTimeout (timeoutOutput 50)) ∧
    ((timeoutOutput 50).timed_out = true) ∧
    (process_exec_tool_call (.expired 50) = .sandboxTimeout (timeoutOutput 50) ∧
      (timeoutOutput 50).exit_code = 124 ∧
      (timeoutOutput 50).stderr.text = timeoutMessage) :=
  ⟨Or.inr rfl, rfl,
   timed_out_implies_124 (.expired 50) (timeoutOutput 50) (Or.inr rfl) rfl⟩

/-! ## Web-server approval manager (approval_manager.rs).

respond_to_approval is embedded over an association list standing for the
pending-approvals HashMap, with Instant elapsed time modelled by an abstract
now tick and the oneshot send success by a waiterAlive flag on the context. -/

structure WsApprovalContext where
  thread_id : String
  item_id : String
  created_at : Nat
  timeout : Nat
  waiterAlive : Bool
  deriving DecidableEq

inductive WsApprovalDecision where
  | approve
  | decline
  deriving DecidableEq

inductive RespondError where
  | notFound
  | timedOut
  | disconnected
  deriving DecidableEq

structure RespondResult where
  result : Except RespondError Unit
  pending : List (String × WsApprovalContext)
  delivered : Option WsApprovalDecision

def respond_to_approval (pending : List (String × WsApprovalContext)) (now : Nat)
    (approvalId : String) (decision : WsApprovalDecision) : RespondResult :=
  match lookupKey pending approvalId with
  | none => ⟨.error .notFound, pending, none⟩
  | some ctx =>
    let remaining := eraseKey pending approvalId
    if ctx.timeout ≤ now - ctx.created_at then ⟨.error .timedOut, remaining, none⟩
    else if ctx.waiterAlive then ⟨.ok (), remaining, some decision⟩
    else ⟨.error .disconnected, remaining, none⟩

/-- C6: an unknown id yields NotFound with the map unchanged; a known context
whose elapsed time reached its timeout yields TimedOut; otherwise the
decision is delivered on the oneshot when the waiter is alive and the call
yields Disconnected when it is not; in every non-NotFound case the context
is removed from the map. -/
theorem respond_to_approval_contract (pending : List (String × WsApprovalContext))
    (now : Nat) (approvalId : String) (decision : WsApprovalDecision) :
    (lookupKey pending approvalId = none →
      (respond_to_approval pending now approvalId decision).result = .error .notFound ∧
      (respond_to_approval pending now approvalId decision).pending = pending ∧
      (respond_to_approval pending now approvalId decision).delivered = none) ∧
    (∀ ctx, lookupKey pending approvalId = some ctx →
      (respond_to_approval pending now approvalId decision).pending
        = eraseKey pending approvalId ∧
      (ctx.timeout ≤ now - ctx.created_at →
        (respond_to_approval pending now approvalId decision).result = .error .timedOut ∧
        (respond_to_approval pending now approvalId decision).delivered = none) ∧
      (now - ctx.created_at < ctx.timeout → ctx.waiterAlive = true →
        (respond_to_approval pending now approvalId decision).result = .ok () ∧
        (respond_to_approval pending now approvalId decision).delivered = some decision) ∧
      (now - ctx.created_at < ctx.timeout → ctx.waiterAlive = false →
        (respond_to_approval pending now approvalId decision).result
          = .error .disconnected ∧
        (respond_to_approval pending now approvalId decision).delivered = none)) := by
  constructor
  · intro hnone
    simp [respond_to_approval, hnone]
  · intro ctx hsome
    by_cases hto : ctx.timeout ≤ now - ctx.created_at
    · refine ⟨?_, fun _ => ?_, fun hlt _ => absurd hto (by omega), fun hlt _ => absurd hto (by omega)⟩
      · simp [respond_to_approval, hsome, hto]
      · constructor <;> simp [respond_to_approval, hsome, hto]
    · have hlt : now - ctx.created_at < ctx.timeout := by omega
      cases halive : ctx.waiterAlive
      · refine ⟨?_, fun hge => absurd hge hto, fun _ hal => absurd hal (by decide),
          fun _ _ => ?_⟩
        · simp [respond_to_approval, hsome, hto, halive]
        · constructor <;> simp [respond_to_approval, hsome, hto, halive]
      · refine ⟨?_, fun hge => absurd hge hto, fun _ _ => ?_,
          fun _ hal => absurd hal (by decide)⟩
        · simp [respond_to_approval, hsome, hto, halive]
        · constructor <;> simp [respond_to_approval, hsome, hto, halive]

/-- C6 witness: the contract applied at a one-entry pending map whose context
is fresh and whose waiter is alive, so the decision is delivered. -/
theorem respond_to_approval_contract_witness :
    (lookupKey [("id1", (⟨"t", "i", 0, 900, true⟩ : WsApprovalContext))] "id1"
      = some ⟨"t", "i", 0, 900, true⟩) ∧
    ((10 : Nat) - 0 < 900) ∧
    ((respond_to_approval [("id1", ⟨"t", "i", 0, 900, true⟩)] 10 "id1" .approve).result
        = .ok () ∧
      (respond_to_approval [("id1", ⟨"t", "i", 0, 900, true⟩)] 10 "id1" .approve).delivered
        = some .approve) :=
  ⟨by decide, by decide,
   ((respond_to_approval_contract [("id1", ⟨"t", "i", 0, 900, true⟩)] 10 "id1"
      .approve).2 ⟨"t", "i", 0, 900, true⟩ (by decide)).2.2.1 (by decide) rfl⟩

/-! ## Boxlite runtime-dir discovery (apply_patch.rs and escalate_server.rs,
textually identical copies).

Paths are modelled as component lists; the filesystem is a structure giving
file existence, directory listings in iteration order, and modification
times (the last only consulted by the spec-side comparison function). -/

structure FsModel where
  isFile : List String → Bool
  readDir : List String → Option (List String)
  mtime : List String → Nat

def profile_dir_from_exe (exe : List String) : Option (List String) :=
  match exe with
  | [] => none
  | _ =>
    let parent := exe.dropLast
    if parent.getLast? = some "deps" then
      match parent with
      | [] => none
      | _ => some parent.dropLast
    else some parent

def boxliteEntryMatches (fs : FsModel) (profile : List String) (n : String) : Bool :=
  "boxlite-".data.isPrefixOf n.data &&
    fs.isFile (profile ++ ["build", n, "out", "runtime", "mke2fs"])

def scanBuildEntries (fs : FsModel) (profile : List String) :
    List String → Option (List String)
  | [] => none
  | n :: rest =>
    if boxliteEntryMatches fs profile n then
      some (profile ++ ["build", n, "out", "runtime"])
    else scanBuildEntries fs profile rest

def discover_boxlite_runtime_dir (fs : FsModel) (profile : List String) :
    Option (List String) :=
  match fs.readDir (profile ++ ["build"]) with
  | none => none
  | some names => scanBuildEntries fs profile names

def boxlite_runtime_dir (envVar : Option (List String))
    (currentExe : Option (List String)) (fs : FsModel) : Option (List String) :=
  match envVar with
  | some v => some v
  | none =>
    match currentExe with
    | none => none
    | some exe =>
      match profile_dir_from_exe exe with
      | none => none
      | some profile =>
        if fs.isFile (profile ++ ["deps", "runtime", "mke2fs"]) then
          some (profile ++ ["deps", "runtime"])
        else discover_boxlite_runtime_dir fs profile

/-- Modelled from the spec: scanning build entries for the newest match, the
selection rule the design document ascribes to the discovery (the source
under src instead returns the first match in directory-iteration order). -/
def pickNewest (mt : String → Nat) : List String → Option String
  | [] => none
  | n :: rest =>
    match pickNewest mt rest with
    | none => some n
    | some m => if mt n < mt m then some m else some n

/-- Modelled from the spec: the build-dir scan as the spec words it, keeping
the newest entry containing the probe file. -/
def discover_boxlite_runtime_dir_newest (fs : FsModel) (profile : List String) :
    Option (List String) :=
  match fs.readDir (profile ++ ["build"]) with
  | none => none
  | some names =>
    (pickNewest (fun n => fs.mtime (profile ++ ["build", n]))
        (names.filter (boxliteEntryMatches fs profile))).map
      (fun n => profile ++ ["build", n, "out", "runtime"])

def fsScanCex : FsModel where
  isFile := fun p =>
    p == ["build", "boxlite-old", "out", "runtime", "mke2fs"] ||
    p == ["build", "boxlite-new", "out", "runtime", "mke2fs"]
  readDir := fun p => if p == ["build"] then some ["boxlite-old", "boxlite-new"] else none
  mtime := fun p => if p == ["build", "boxlite-new"] then 2 else 1

/-- C3 counterexample: with two matching build entries of which the second in
directory-iteration order is strictly newer, the discovery returns the first
iterated entry, not the newest one (which the spec-side newest rule picks),
so the scan does not select the newest matching entry. -/
theorem boxlite_scan_not_newest_counterexample :
    boxlite_runtime_dir none (some ["codex"]) fsScanCex
      = some ["build", "boxlite-old", "out", "runtime"] ∧
    boxliteEntryMatches fsScanCex [] "boxlite-new" = true ∧
    fsScanCex.mtime ["build", "boxlite-old"] < fsScanCex.mtime ["build", "boxlite-new"] ∧
    discover_boxlite_runtime_dir_newest fsScanCex []
      = some ["build", "boxlite-new", "out", "runtime"] ∧
    boxlite_runtime_dir none (some ["codex"]) fsScanCex
      ≠ discover_boxlite_runtime_dir_newest fsScanCex [] := by
  refine ⟨by decide, by decide, by decide, by decide, by decide⟩

theorem scanBuildEntries_first_match (fs : FsModel) (profile : List String) :
    ∀ names r, scanBuildEntries fs profile names = some r →
      ∃ pre n post, names = pre ++ n :: post ∧
        boxliteEntryMatches fs profile n = true ∧
        (∀ m ∈ pre, boxliteEntryMatches fs profile m = false) ∧
        r = profile ++ ["build", n, "out", "runtime"] := by
  intro names
  induction names with
  | nil => intro r hr; exact absurd hr (by simp [scanBuildEntries])
  | cons n rest ih =>
    intro r hr
    by_cases h : boxliteEntryMatches fs profile n = true
    · refine ⟨[], n, rest, by simp, h, by simp, ?_⟩
      simp only [scanBuildEntries, if_pos h, Option.some.injEq] at hr
      exact hr.symm
    · simp only [scanBuildEntries, if_neg h] at hr
      obtain ⟨pre, m, post, h1, h2, h3, h4⟩ := ih r hr
      refine ⟨n :: pre, m, post, by simp [h1], h2, ?_, h4⟩
      intro x hx
      rcases List.mem_cons.mp hx with hx | hx
      · subst hx
        simpa using h
      · exact h3 x hx

/-- C3 (amended): discovery honors, in order, the explicit runtime-dir env
var, then the deps-runtime probe under the profile dir, then a scan of the
build dir returning the first entry in directory-iteration order whose
out-runtime subdir contains the probe file; for every invocation with the
env var set the result is exactly that env var value. -/
theorem boxlite_runtime_dir_stages (envVar : Option (List String))
    (currentExe : Option (List String)) (fs : FsModel) :
    (∀ v, envVar = some v → boxlite_runtime_dir envVar currentExe fs = some v) ∧
    (∀ exe profile, envVar = none → currentExe = some exe →
      profile_dir_from_exe exe = some profile →
      (fs.isFile (profile ++ ["deps", "runtime", "mke2fs"]) = true →
        boxlite_runtime_dir envVar currentExe fs = some (profile ++ ["deps", "runtime"])) ∧
      (fs.isFile (profile ++ ["deps", "runtime", "mke2fs"]) = false →
        ∀ names, fs.readDir (profile ++ ["build"]) = some names →
          ∀ r, boxlite_runtime_dir envVar currentExe fs = some r →
            ∃ pre n post, names = pre ++ n :: post ∧
              boxliteEntryMatches fs profile n = true ∧
              (∀ m ∈ pre, boxliteEntryMatches fs profile m = false) ∧
              r = profile ++ ["build", n, "out", "runtime"])) := by
  constructor
  · intro v hv
    subst hv
    rfl
  · intro exe profile henv hexe hprof
    subst henv
    subst hexe
    constructor
    · intro hdeps
      simp [boxlite_runtime_dir, hprof, hdeps]
    · intro hdeps names hnames r hr
      simp only [boxlite_runtime_dir, hprof, hdeps, Bool.false_eq_true, if_false,
        discover_boxlite_runtime_dir, hnames] at hr
      exact scanBuildEntries_first_match fs profile names r hr

def fsDepsCex : FsModel where
  isFile := fun p => p == ["target", "debug", "deps", "runtime", "mke2fs"]
  readDir := fun _ => none
  mtime := fun _ => 0

/-- C3 witness: the staged theorem applied with the env var set, returning
exactly its value, and again with it unset and the deps probe present. -/
theorem boxlite_runtime_dir_stages_witness :
    (boxlite_runtime_dir (some ["opt", "runtime"]) none fsScanCex = some ["opt", "runtime"]) ∧
    (profile_dir_from_exe ["target", "debug", "codex"] = some ["target", "debug"] ∧
      boxlite_runtime_dir none (some ["target", "debug", "codex"]) fsDepsCex
        = some ["target", "debug", "deps", "runtime"]) :=
  ⟨(boxlite_runtime_dir_stages (some ["opt", "runtime"]) none fsScanCex).1
     ["opt", "runtime"] rfl,
   by decide,
   ((boxlite_runtime_dir_stages none (some ["target", "debug", "codex"]) fsDepsCex).2
     ["target", "debug", "codex"] ["target", "debug"] rfl rfl (by decide)).1 (by decide)⟩

/-! ## Apply-patch runtime (apply_patch.rs).

The request record, the minimal-env assembly and the self-invocation command
builder. AbsolutePathBuf values are modelled as strings; the create_env
allowlist base of minimal_env lives in codex-core outside src and is taken
as a parameter; the compile-time target-os test of the source is an explicit
boolean parameter. -/

def LOADER_ENV_VARS : List String :=
  ["DYLD_LIBRARY_PATH", "DYLD_FALLBACK_LIBRARY_PATH", "DYLD_INSERT_LIBRARIES",
   "LD_LIBRARY_PATH"]

def LOADER_PATH_ENV_VARS : List String :=
  ["DYLD_LIBRARY_PATH", "DYLD_FALLBACK_LIBRARY_PATH", "LD_LIBRARY_PATH"]

def BOXLITE_RUNTIME_ENV_VAR : String := "BOXLITE_RUNTIME_DIR"

/-- Modelled from the spec: the well-known internal flag of the self
invocation, codex --codex-run-as-apply-patch; the constant itself is defined
in the codex-apply-patch crate outside src. -/
def CODEX_CORE_APPLY_PATCH_ARG1 : String := "--codex-run-as-apply-patch"

structure ApplyPatchAction where
  patch : String
  cwd : String
  deriving DecidableEq

/-- Modelled from the spec: the precomputed approval requirement assessed
upstream and honored verbatim; its internals live in codex-core outside src
and are opaque to the runtime embedded here. -/
structure ExecApprovalRequirement where
  tag : String
  deriving DecidableEq

structure ApplyPatchRequest where
  action : ApplyPatchAction
  file_paths : List String
  changes : List (String × String)
  exec_approval_requirement : ExecApprovalRequirement
  timeout_ms : Option Nat
  codex_exe : Option String
  deriving DecidableEq

structure CommandSpec where
  program : String
  args : List String
  cwd : String
  expiration : Option Nat
  env : EnvMap
  deriving DecidableEq

inductive ToolError where
  | Rejected (message : String)
  deriving DecidableEq

def apply_boxlite_runtime_env (runtimeDir : Option String) (env : EnvMap) : EnvMap :=
  match runtimeDir with
  | none => env
  | some dir =>
    LOADER_PATH_ENV_VARS.foldl (fun e key => prepend_env_path e key dir)
      (envInsert env BOXLITE_RUNTIME_ENV_VAR dir)

def minimal_env (coreEnv : EnvMap) (processEnv : String → Option String)
    (runtimeDir : Option String) : EnvMap :=
  apply_boxlite_runtime_env runtimeDir
    (LOADER_ENV_VARS.foldl
      (fun e key => match processEnv key with
        | some v => envInsert e key v
        | none => e) coreEnv)

def currentExeOr (currentExe : Option String) : Except ToolError String :=
  match currentExe with
  | some e => Except.ok e
  | none => Except.error (ToolError.Rejected "failed to determine codex exe")

def build_command_spec (isLinux : Bool) (currentExe : Option String)
    (pathExists : String → Bool) (coreEnv : EnvMap)
    (processEnv : String → Option String) (runtimeDir : Option String)
    (req : ApplyPatchRequest) : Except ToolError CommandSpec :=
  let exeRes : Except ToolError String :=
    if isLinux then
      match req.codex_exe.filter pathExists with
      | some p => Except.ok p
      | none => currentExeOr currentExe
    else currentExeOr currentExe
  match exeRes with
  | Except.error e => Except.error e
  | Except.ok program =>
    Except.ok
      { program := program
        args := [CODEX_CORE_APPLY_PATCH_ARG1, req.action.patch]
        cwd := req.action.cwd
        expiration := req.timeout_ms
        env := minimal_env coreEnv processEnv runtimeDir }

def reqCex : ApplyPatchRequest :=
  { action := ⟨"patch-text", "/work"⟩
    file_paths := ["/work/a.txt"]
    changes := []
    exec_approval_requirement := ⟨"skip"⟩
    timeout_ms := none
    codex_exe := some "/custom/codex" }

/-- C4 counterexample: off the Linux target the builder ignores a
caller-provided codex_exe even when that path exists, and self-invokes the
current executable instead, so the claimed program selection fails there. -/
theorem build_command_spec_nonlinux_counterexample :
    (match build_command_spec false (some "/usr/bin/codex") (fun _ => true) []
        (fun _ => none) none reqCex with
      | Except.ok spec => spec.program
      | Except.error _ => "") = "/usr/bin/codex" ∧
    reqCex.codex_exe = some "/custom/codex" ∧
    (fun (_ : String) => true) "/custom/codex" = true ∧
    ("/usr/bin/codex" : String) ≠ "/custom/codex" := by
  refine ⟨rfl, rfl, rfl, by decide⟩

/-- C4 (amended): the assembled command self-invokes, on the Linux target,
the caller-provided codex_exe when that path exists and otherwise the
current executable, and on every other target always the current
executable; argv consists of the apply-patch flag followed by the patch
text; cwd is the action cwd; expiration is the request timeout; and env is
the minimal environment with the loader variables and the runtime-dir
overlay applied. -/
theorem build_command_spec_shape (isLinux : Bool) (cur : String)
    (pathExists : String → Bool) (coreEnv : EnvMap)
    (processEnv : String → Option String) (runtimeDir : Option String)
    (req : ApplyPatchRequest) :
    ∃ spec,
      build_command_spec isLinux (some cur) pathExists coreEnv processEnv runtimeDir req
        = Except.ok spec ∧
      (isLinux = true → ∀ p, req.codex_exe = some p → pathExists p = true →
        spec.program = p) ∧
      (isLinux = true → ∀ p, req.codex_exe = some p → pathExists p = false →
        spec.program = cur) ∧
      (isLinux = true → req.codex_exe = none → spec.program = cur) ∧
      (isLinux = false → spec.program = cur) ∧
      spec.args = [CODEX_CORE_APPLY_PATCH_ARG1, req.action.patch] ∧
      spec.cwd = req.action.cwd ∧
      spec.expiration = req.timeout_ms ∧
      spec.env = minimal_env coreEnv processEnv runtimeDir := by
  cases isLinux with
  | false =>
    refine ⟨_, rfl, ?_, ?_, ?_, fun _ => rfl, rfl, rfl, rfl, rfl⟩ <;>
      exact fun h => absurd h (by decide)
  | true =>
    cases hx : req.codex_exe with
    | none =>
      have hmain : build_command_spec true (some cur) pathExists coreEnv processEnv
          runtimeDir req
          = Except.ok
            { program := cur,
              args := [CODEX_CORE_APPLY_PATCH_ARG1, req.action.patch],
              cwd := req.action.cwd, expiration := req.timeout_ms,
              env := minimal_env coreEnv processEnv runtimeDir } := by
        simp [build_command_spec, hx, Option.filter, currentExeOr]
      refine ⟨_, hmain, ?_, ?_, fun _ _ => rfl, fun h => absurd h (by decide),
        rfl, rfl, rfl, rfl⟩ <;>
        · intro _ p hp
          exact absurd hp (by simp)
    | some p =>
      by_cases hpe : pathExists p = true
      · have hmain : build_command_spec true (some cur) pathExists coreEnv processEnv
            runtimeDir req
            = Except.ok
              { program := p,
                args := [CODEX_CORE_APPLY_PATCH_ARG1, req.action.patch],
                cwd := req.action.cwd, expiration := req.timeout_ms,
                env := minimal_env coreEnv processEnv runtimeDir } := by
          simp [build_command_spec, hx, Option.filter, hpe]
        refine ⟨_, hmain, fun _ p2 hp2 _ => ?_, fun _ p2 hp2 hpe2 => ?_,
          fun _ hnone => ?_, fun h => absurd h (by decide), rfl, rfl, rfl, rfl⟩
        · obtain rfl : p = p2 := by simpa using hp2
          rfl
        · obtain rfl : p = p2 := by simpa using hp2
          rw [hpe] at hpe2
          exact absurd hpe2 (by decide)
        · exact absurd hnone (by simp)
      · have hpf : pathExists p = false := by simpa using hpe
        have hmain : build_command_spec true (some cur) pathExists coreEnv processEnv
            runtimeDir req
            = Except.ok
              { program := cur,
                args := [CODEX_CORE_APPLY_PATCH_ARG1, req.action.patch],
                cwd := req.action.cwd, expiration := req.timeout_ms,
                env := minimal_env coreEnv processEnv runtimeDir } := by
          simp [build_command_spec, hx, Option.filter, hpf, currentExeOr]
        refine ⟨_, hmain, fun _ p2 hp2 hpe2 => ?_, fun _ _ _ _ => rfl,
          fun _ _ => rfl, fun h => absurd h (by decide), rfl, rfl, rfl, rfl⟩
        obtain rfl : p = p2 := by simpa using hp2
        rw [hpf] at hpe2
        exact absurd hpe2 (by decide)

/-- C4 witness: the amended shape theorem applied on the Linux target with a
caller-provided codex_exe that exists. -/
theorem build_command_spec_shape_witness :
    ∃ spec,
      build_command_spec true (some "/usr/bin/codex") (fun _ => true) []
        (fun _ => none) none reqCex = Except.ok spec ∧
      spec.program = "/custom/codex" ∧
      spec.args = [CODEX_CORE_APPLY_PATCH_ARG1, "patch-text"] ∧
      spec.cwd = "/work" :=
  match build_command_spec_shape true "/usr/bin/codex" (fun _ => true) []
      (fun _ => none) none reqCex with
  | ⟨spec, h1, h2, _, _, _, h6, h7, _, _⟩ =>
    ⟨spec, h1, h2 rfl "/custom/codex" rfl rfl, h6, h7⟩

/-! ## Apply-patch approval flow (start_approval_async in apply_patch.rs).

The oneshot prompt is modelled by the decision the user would answer, the
per-tool cache by a lookup function on the key vector; the observable
effects are the final decision, whether a prompt was emitted, and the reason
attached to it. -/

inductive ReviewDecision where
  | approved
  | approvedForSession
  | denied
  | abort
  deriving DecidableEq

structure ApprovalOutcome where
  decision : ReviewDecision
  prompted : Bool
  promptReason : Option String
  cachedKeys : Option (List String)
  deriving DecidableEq

/-- Modelled from the spec: with_cached_approval (codex-core sandboxing,
outside src) checks the per-tool approval cache for the key vector; on a hit
it short-circuits to the cached decision without prompting, on a miss it
runs the prompt and records the decision for the session when the user
answers ApprovedForSession. -/
def with_cached_approval (cache : List String → Option ReviewDecision)
    (keys : List String) (promptDecision : ReviewDecision) : ApprovalOutcome :=
  match cache keys with
  | some d => ⟨d, false, none, none⟩
  | none =>
    ⟨promptDecision, true, none,
     if promptDecision = ReviewDecision.approvedForSession then some keys else none⟩

def approval_keys (req : ApplyPatchRequest) : List String := req.file_paths

def start_approval_async (retryReason : Option String)
    (cache : List String → Option ReviewDecision)
    (promptDecision : ReviewDecision) (req : ApplyPatchRequest) : ApprovalOutcome :=
  match retryReason with
  | some reason => ⟨promptDecision, true, some reason, none⟩
  | none => with_cached_approval cache (approval_keys req) promptDecision

/-- C5: with a retry reason present the runtime re-prompts carrying that
reason and never consults the cache (the outcome is the same under any
cache); with no retry reason and a cache hit for the apply-patch key vector,
the cached decision is returned and no prompt is emitted. -/
theorem start_approval_cache_discipline (retryReason : Option String)
    (cache : List String → Option ReviewDecision)
    (promptDecision : ReviewDecision) (req : ApplyPatchRequest) :
    (∀ reason, retryReason = some reason →
      (start_approval_async retryReason cache promptDecision req).prompted = true ∧
      (start_approval_async retryReason cache promptDecision req).promptReason
        = some reason ∧
      (start_approval_async retryReason cache promptDecision req).decision
        = promptDecision ∧
      ∀ cache2, start_approval_async retryReason cache promptDecision req
        = start_approval_async retryReason cache2 promptDecision req) ∧
    (retryReason = none → ∀ d, cache (approval_keys req) = some d →
      (start_approval_async retryReason cache promptDecision req).decision = d ∧
      (start_approval_async retryReason cache promptDecision req).prompted = false) := by
  constructor
  · intro reason hr
    subst hr
    exact ⟨rfl, rfl, rfl, fun _ => rfl⟩
  · intro hr d hd
    subst hr
    simp only [approval_keys] at hd
    constructor <;>
      simp [start_approval_async, with_cached_approval, approval_keys, hd]

/-- C5 witness: the cache-discipline theorem applied both at a retry prompt
with a concrete reason and at a cache hit returning the cached denial. -/
theorem start_approval_cache_discipline_witness :
    ((start_approval_async (some "sandbox denied") (fun _ => none) .approved
        reqCex).prompted = true ∧
      (start_approval_async (some "sandbox denied") (fun _ => none) .approved
        reqCex).promptReason = some "sandbox denied") ∧
    ((fun (_ : List String) => some ReviewDecision.denied) (approval_keys reqCex)
        = some ReviewDecision.denied ∧
      (start_approval_async none (fun _ => some ReviewDecision.denied) .approved
        reqCex).decision = ReviewDecision.denied ∧
      (start_approval_async none (fun _ => some ReviewDecision.denied) .approved
        reqCex).prompted = false) :=
  ⟨⟨((start_approval_cache_discipline (some "sandbox denied") (fun _ => none) .approved
        reqCex).1 "sandbox denied" rfl).1,
    ((start_approval_cache_discipline (some "sandbox denied") (fun _ => none) .approved
        reqCex).1 "sandbox denied" rfl).2.1⟩,
   rfl,
   ((start_approval_cache_discipline none (fun _ => some ReviewDecision.denied) .approved
        reqCex).2 rfl ReviewDecision.denied rfl).1,
   ((start_approval_cache_discipline none (fun _ => some ReviewDecision.denied) .approved
        reqCex).2 rfl ReviewDecision.denied rfl).2⟩

end Codex
